import Mathlib

/-!
Verification of the 4sale jobs/others scraping pipeline.

Shallow embedding of the repository's core logic:
* `DetailsScraper.py` — `scrape_publish_date` (relative-time resolution) and
  `get_card_details` (page retry loop);
* `jobs_main.py` / `others_main.py` — the date-window filter in
  `scrape_job` / `scrape_other`, the chunk partition in `scrape_all_jobs` /
  `scrape_all_others`, the per-file upload retry loop in
  `upload_files_with_retry`, and the post-upload local cleanup;
* `SavingOnDriveJobs.py` / `SavingOnDriveOthers.py` — `get_folder_id` /
  `create_folder` over an explicit Drive state.

Modelling conventions: Python `datetime` is a record of calendar fields with
unbounded year (Python's year range 1..9999 and its OverflowError are outside
the model); `timedelta` subtraction goes through epoch seconds computed by the
standard civil-calendar day-number algorithm; `re` character classes `\d` and
`\s` are modelled as ASCII digits and the ASCII whitespace recognised by
`Char.isWhitespace`. `re.IGNORECASE` appears twice: first as plain ASCII
case folding (`lowerList`, adequate for the date-filter and
unit-resolution statements), then refined with CPython's documented
non-ASCII equivalences for this pattern's letters ('ſ' ↔ 's', 'ı' ↔ 'i';
`reFoldChar`), under which the unsupported-unit fallback branch is
reachable exactly as it is in the source.
-/

/-! ### Python `datetime` model -/

/-- Python `datetime.datetime`: naive local calendar timestamp. -/
structure Datetime where
  year : Int
  month : Nat
  day : Nat
  hour : Nat
  minute : Nat
  second : Nat
deriving DecidableEq, Repr

/-- Gregorian leap-year rule (as used by `datetime` / `dateutil`). -/
def isLeap (y : Int) : Bool := (y % 4 == 0 && y % 100 != 0) || (y % 400 == 0)

/-- Length of month `m` of year `y`. -/
def daysInMonth (y : Int) (m : Nat) : Nat :=
  if m = 2 then (if isLeap y then 29 else 28)
  else if m = 4 ∨ m = 6 ∨ m = 9 ∨ m = 11 then 30
  else 31

/-- Day number of a civil date (days since 1970-01-01, Hinnant's algorithm). -/
def daysFromCivil (y : Int) (m d : Nat) : Int :=
  let y' : Int := if m ≤ 2 then y - 1 else y
  let era : Int := Int.fdiv y' 400
  let yoe : Nat := (y' - era * 400).toNat
  let mp : Nat := if 2 < m then m - 3 else m + 9
  let doy : Nat := (153 * mp + 2) / 5 + d - 1
  let doe : Nat := yoe * 365 + yoe / 4 - yoe / 100 + doy
  era * 146097 + (doe : Int) - 719468

/-- Civil date from a day number (inverse of `daysFromCivil`). -/
def civilFromDays (z0 : Int) : Int × Nat × Nat :=
  let z := z0 + 719468
  let era : Int := Int.fdiv z 146097
  let doe : Nat := (z - era * 146097).toNat
  let yoe : Nat := (doe - doe / 1460 + doe / 36524 - doe / 146096) / 365
  let doy : Nat := doe - (365 * yoe + yoe / 4 - yoe / 100)
  let mp : Nat := (5 * doy + 2) / 153
  let d : Nat := doy - (153 * mp + 2) / 5 + 1
  let m : Nat := if mp < 10 then mp + 3 else mp - 9
  let y : Int := (yoe : Int) + era * 400 + (if m ≤ 2 then 1 else 0)
  (y, m, d)

/-- Seconds since 1970-01-01 00:00:00. -/
def toEpochSeconds (t : Datetime) : Int :=
  daysFromCivil t.year t.month t.day * 86400
    + (t.hour : Int) * 3600 + (t.minute : Int) * 60 + (t.second : Int)

/-- `Datetime` from seconds since the epoch. -/
def ofEpochSeconds (s : Int) : Datetime :=
  let days : Int := Int.fdiv s 86400
  let sod : Nat := (s - days * 86400).toNat
  let ymd := civilFromDays days
  ⟨ymd.1, ymd.2.1, ymd.2.2, sod / 3600, (sod % 3600) / 60, sod % 60⟩

/-- `t - timedelta(seconds=n)` (also used for minutes/hours/days via a
fixed number of seconds, exactly as `timedelta` does). -/
def subSeconds (t : Datetime) (n : Nat) : Datetime :=
  ofEpochSeconds (toEpochSeconds t - (n : Int))

/-- `t - relativedelta(months=n)`: calendar-aware month subtraction with the
day-of-month clamped to the target month's length, as `dateutil` does. -/
def subMonths (t : Datetime) (n : Nat) : Datetime :=
  let tot : Int := t.year * 12 + (t.month : Int) - 1 - (n : Int)
  let y : Int := Int.fdiv tot 12
  let m : Nat := (tot - y * 12).toNat + 1
  ⟨y, m, min t.day (daysInMonth y m), t.hour, t.minute, t.second⟩

/-! ### Decimal rendering and `strftime` -/

/-- The decimal digit characters. -/
def digitChars : List Char := ['0', '1', '2', '3', '4', '5', '6', '7', '8', '9']

/-- Character for the decimal digit `m` (callers pass `m < 10`). -/
def digitChar (m : Nat) : Char := digitChars.getD m '0'

/-- Accumulator loop producing the decimal digits of `n` (fuel-structural so
that concrete instances evaluate by `decide`/`rfl`). -/
def natDigitsGo : Nat → Nat → List Char → List Char
  | 0, _, acc => acc
  | fuel + 1, n, acc =>
    if n = 0 then acc else natDigitsGo fuel (n / 10) (digitChar (n % 10) :: acc)

/-- Decimal digit string of a natural number (Python `str(n)`). -/
def natDigits (n : Nat) : List Char :=
  if n = 0 then ['0'] else natDigitsGo n n []

/-- Zero-pad to two digits (`strftime` `%m`, `%d`, `%H`, `%M`, `%S`). -/
def pad2 (n : Nat) : List Char :=
  if n < 10 then '0' :: natDigits n else natDigits n

/-- Zero-pad to four digits (`strftime` `%Y` for the years this job sees). -/
def pad4 (n : Nat) : List Char :=
  List.replicate (4 - (natDigits n).length) '0' ++ natDigits n

/-- Characters of `strftime("%Y-%m-%d")`. -/
def ymdChars (t : Datetime) : List Char :=
  pad4 t.year.toNat ++ '-' :: (pad2 t.month ++ '-' :: pad2 t.day)

/-- Characters of `strftime("%H:%M:%S")`. -/
def hmsChars (t : Datetime) : List Char :=
  pad2 t.hour ++ ':' :: (pad2 t.minute ++ ':' :: pad2 t.second)

/-- `strftime("%Y-%m-%d %H:%M:%S")`. -/
def fmtFull (t : Datetime) : String := String.mk (ymdChars t ++ ' ' :: hmsChars t)

/-- `strftime("%Y-%m-%d")`. -/
def fmtDate (t : Datetime) : String := String.mk (ymdChars t)

/-- `(datetime.now() - timedelta(days=1)).strftime("%Y-%m-%d")`: the run's
target date, as computed in `scrape_job` / `scrape_other` /
`upload_files_with_retry`. -/
def yesterdayStr (now : Datetime) : String := fmtDate (subSeconds now 86400)

/-! ### The relative-time regex of `scrape_publish_date`

Pattern `(\d+)\s+(Second|Minute|Hour|Day|Month|شهر|ثانية|دقيقة|ساعة|يوم)`
searched with `re.IGNORECASE`: leftmost match; at a match position the digit
run and the whitespace run are maximal (no alternative begins with a digit or
whitespace, so backtracking cannot produce anything else) and the alternation
is tried left to right. -/

/-- The alternation tokens, already lower-cased (as `match.group(2).lower()`
produces them under ASCII case folding). -/
def unitTokens : List (List Char) :=
  ["second".data, "minute".data, "hour".data, "day".data, "month".data,
   "شهر".data, "ثانية".data, "دقيقة".data, "ساعة".data, "يوم".data]

/-- ASCII-case-fold a character list. As a model of `re.IGNORECASE` this is
a narrowing: CPython additionally matches the documented equivalences
'ſ' ↔ 's' and 'ı' ↔ 'i' — see `reFoldChar` below, which refines this and
makes the unsupported-unit fallback reachable. As a model of the
`.lower()` call applied to a captured token it is exact for the characters
these models admit ('ſ' and 'ı' are fixed points of `str.lower()`). -/
def lowerList (cs : List Char) : List Char := cs.map Char.toLower

/-- First alternation token that is a prefix of the case-folded remainder. -/
def findUnit (cs : List Char) : Option (List Char) :=
  unitTokens.find? (fun tok => tok.isPrefixOf (lowerList cs))

/-- `int(...)` on a digit run. -/
def digitsToNat (ds : List Char) : Nat :=
  ds.foldl (fun a c => a * 10 + (c.toNat - 48)) 0

/-- Attempt to match the whole pattern at the start of `cs`. -/
def tryMatch (cs : List Char) : Option (Nat × List Char) :=
  if (cs.takeWhile Char.isDigit).isEmpty then none
  else if ((cs.dropWhile Char.isDigit).takeWhile Char.isWhitespace).isEmpty then none
  else
    match findUnit ((cs.dropWhile Char.isDigit).dropWhile Char.isWhitespace) with
    | some tok => some (digitsToNat (cs.takeWhile Char.isDigit), tok)
    | none => none

/-- `re.search`: try the pattern at each position, leftmost first. -/
def reSearch : List Char → Option (Nat × List Char)
  | [] => none
  | c :: cs =>
    match tryMatch (c :: cs) with
    | some r => some r
    | none => reSearch cs

/-- `DetailsScraping.scrape_publish_date` (src/DetailsScraper.py lines
151-181): resolve a relative-time phrase against the current time. -/
def scrape_publish_date (relative_time : String) (current_time : Datetime) : String :=
  match reSearch relative_time.data with
  | none => "Invalid Relative Time"
  | some (number, tok) =>
    let unit := String.mk tok
    if unit = "second" ∨ unit = "ثانية" then
      fmtFull (subSeconds current_time number)
    else if unit = "minute" ∨ unit = "دقيقة" then
      fmtFull (subSeconds current_time (60 * number))
    else if unit = "hour" ∨ unit = "ساعة" then
      fmtFull (subSeconds current_time (3600 * number))
    else if unit = "day" ∨ unit = "يوم" then
      fmtFull (subSeconds current_time (86400 * number))
    else if unit = "month" ∨ unit = "شهر" then
      fmtFull (subMonths current_time number)
    else "Unsupported time unit found."

example : scrape_publish_date "5 ساعة" ⟨2024, 5, 15, 3, 0, 0⟩
    = "2024-05-14 22:00:00" := by decide

example : scrape_publish_date "hello" ⟨2024, 5, 15, 3, 0, 0⟩
    = "Invalid Relative Time" := by decide

example : scrape_publish_date "2 Months ago" ⟨2024, 3, 31, 3, 0, 0⟩
    = "2024-01-31 03:00:00" := by decide

example : scrape_publish_date "1 month" ⟨2024, 3, 31, 3, 0, 0⟩
    = "2024-02-29 03:00:00" := by decide

/-! ### The date-window filter of `scrape_job` / `scrape_other` -/

/-- Python `str.split()` with no separator: split on whitespace runs,
dropping empty pieces (accumulator holds the current token reversed). -/
def pySplitGo : List Char → List Char → List (List Char)
  | [], cur => if cur.isEmpty then [] else [cur.reverse]
  | c :: cs, cur =>
    if c.isWhitespace then
      (if cur.isEmpty then pySplitGo cs [] else cur.reverse :: pySplitGo cs [])
    else pySplitGo cs (c :: cur)

def pySplit (s : String) : List (List Char) := pySplitGo s.data []

/-- The retention test
`card.get("date_published") and card.get("date_published", "").split()[0] == yesterday`
from `scrape_job` (src/jobs_main.py line 70) and `scrape_other`
(src/others_main.py line 56). `none` models the `IndexError` Python would
raise on a non-empty all-whitespace date (unreachable for the values this
program produces). -/
def keepCard (date_published : Option String) (yesterday : String) : Option Bool :=
  match date_published with
  | none => some false
  | some s =>
    if s = "" then some false
    else
      match pySplit s with
      | [] => none
      | t :: _ => some (decide (t = yesterday.data))

/-- Spec-side: the calendar-date part of a timestamp string, "the substring
before the first space". -/
def beforeFirstSpace (s : String) : List Char :=
  s.data.takeWhile (fun c => c ≠ ' ')

/-- Spec-side retention predicate: retained iff the record has a non-empty
publish timestamp whose part before the first space equals the target date. -/
def specKeep (date_published : Option String) (target : String) : Bool :=
  match date_published with
  | none => false
  | some s =>
    if s = "" then false else decide (beforeFirstSpace s = target.data)

/-! ### Character-class lemmas for the formatted timestamps -/

/-- Alphabet of `strftime("%Y-%m-%d")` output. -/
def ymdAlphabet : List Char := ['0', '1', '2', '3', '4', '5', '6', '7', '8', '9', '-']

theorem digitChar_mem (m : Nat) : digitChar m ∈ digitChars := by
  unfold digitChar
  rcases h : digitChars.get? m with _ | c
  · rw [List.getD_eq_getElem?_getD, ← List.get?_eq_getElem?, h]
    decide
  · rw [List.getD_eq_getElem?_getD, ← List.get?_eq_getElem?, h]
    exact List.get?_mem h

theorem natDigitsGo_mem :
    ∀ (fuel n : Nat) (acc : List Char), (∀ c ∈ acc, c ∈ digitChars) →
      ∀ c ∈ natDigitsGo fuel n acc, c ∈ digitChars := by
  intro fuel
  induction fuel with
  | zero => intro n acc hacc c hc; exact hacc c hc
  | succ f ih =>
    intro n acc hacc c hc
    by_cases hn : n = 0
    · simp only [natDigitsGo, hn, if_pos] at hc
      exact hacc c hc
    · simp only [natDigitsGo, if_neg hn] at hc
      refine ih _ _ ?_ c hc
      intro x hx
      rcases List.mem_cons.mp hx with h | h
      · exact h ▸ digitChar_mem _
      · exact hacc x h

theorem natDigits_mem (n : Nat) : ∀ c ∈ natDigits n, c ∈ digitChars := by
  intro c hc
  unfold natDigits at hc
  by_cases hn : n = 0
  · rw [if_pos hn] at hc
    obtain rfl := List.mem_singleton.mp hc
    decide
  · rw [if_neg hn] at hc
    exact natDigitsGo_mem n n [] (by simp) c hc

theorem pad2_mem (n : Nat) : ∀ c ∈ pad2 n, c ∈ digitChars := by
  intro c hc
  unfold pad2 at hc
  split at hc
  · rcases List.mem_cons.mp hc with h | h
    · exact h ▸ (by decide)
    · exact natDigits_mem n c h
  · exact natDigits_mem n c hc

theorem pad4_mem (n : Nat) : ∀ c ∈ pad4 n, c ∈ digitChars := by
  intro c hc
  unfold pad4 at hc
  rcases List.mem_append.mp hc with h | h
  · exact (List.eq_of_mem_replicate h) ▸ (by decide)
  · exact natDigits_mem n c h

theorem digitChars_sub_ymd : ∀ c ∈ digitChars, c ∈ ymdAlphabet := by decide

theorem ymdChars_mem (t : Datetime) : ∀ c ∈ ymdChars t, c ∈ ymdAlphabet := by
  intro c hc
  unfold ymdChars at hc
  rcases List.mem_append.mp hc with h | h
  · exact digitChars_sub_ymd c (pad4_mem _ c h)
  · rcases List.mem_cons.mp h with h | h
    · exact h ▸ (by decide)
    · rcases List.mem_append.mp h with h | h
      · exact digitChars_sub_ymd c (pad2_mem _ c h)
      · rcases List.mem_cons.mp h with h | h
        · exact h ▸ (by decide)
        · exact digitChars_sub_ymd c (pad2_mem _ c h)

theorem ymdAlphabet_not_ws : ∀ c ∈ ymdAlphabet, c.isWhitespace = false := by decide

theorem ymdAlphabet_ne_space : ∀ c ∈ ymdAlphabet, (decide (c ≠ ' ')) = true := by decide

theorem dash_mem_ymd (t : Datetime) : '-' ∈ ymdChars t := by
  unfold ymdChars
  exact List.mem_append.mpr (Or.inr (List.mem_cons_self _ _))

theorem ymd_ne_nil (t : Datetime) : ymdChars t ≠ [] :=
  List.ne_nil_of_mem (dash_mem_ymd t)

theorem fmtFull_ne_empty (t : Datetime) : fmtFull t ≠ "" := by
  intro h
  have hd : (fmtFull t).data = ("" : String).data := by rw [h]
  have : ymdChars t ++ ' ' :: hmsChars t = [] := hd
  rcases List.append_eq_nil.mp this with ⟨_, h2⟩
  exact List.cons_ne_nil _ _ h2

theorem fmtFull_ne_unsupported (t : Datetime) :
    fmtFull t ≠ "Unsupported time unit found." := by
  intro h
  have hd : '-' ∈ (fmtFull t).data :=
    List.mem_append.mpr (Or.inl (dash_mem_ymd t))
  rw [h] at hd
  revert hd
  decide

theorem invalid_tok_ne_ymd (t : Datetime) :
    ("Invalid".data : List Char) ≠ ymdChars t := by
  intro h
  have hd := dash_mem_ymd t
  rw [← h] at hd
  revert hd
  decide

/-! ### Splitting lemmas -/

theorem takeWhile_append_stop (p : Char → Bool) :
    ∀ (a : List Char) (x : Char) (b : List Char),
      (∀ c ∈ a, p c = true) → p x = false → (a ++ x :: b).takeWhile p = a := by
  intro a
  induction a with
  | nil =>
    intro x b _ hx
    simp [List.takeWhile_cons, hx]
  | cons c a' ih =>
    intro x b ha hx
    have hc : p c = true := ha c (List.mem_cons_self _ _)
    simp only [List.cons_append, List.takeWhile_cons, hc, if_pos]
    rw [ih x b (fun d hd => ha d (List.mem_cons_of_mem _ hd)) hx]

theorem pySplitGo_token (b : List Char) :
    ∀ a : List Char, (∀ c ∈ a, c.isWhitespace = false) →
      ∀ cur : List Char, cur ≠ [] ∨ a ≠ [] →
      pySplitGo (a ++ ' ' :: b) cur = (cur.reverse ++ a) :: pySplitGo b [] := by
  intro a
  induction a with
  | nil =>
    intro _ cur hne
    have hcur : cur ≠ [] := by
      rcases hne with h | h
      · exact h
      · exact absurd rfl h
    have hcur' : cur.isEmpty = false := by
      cases cur
      · exact absurd rfl hcur
      · rfl
    simp only [List.nil_append, pySplitGo]
    rw [if_pos (by decide), if_neg (by simp [hcur'])]
    simp
  | cons c a' ih =>
    intro ha cur _
    have hc : c.isWhitespace = false := ha c (List.mem_cons_self _ _)
    simp only [List.cons_append, pySplitGo]
    rw [if_neg (by simp [hc])]
    simp only [List.append_eq]
    rw [ih (fun d hd => ha d (List.mem_cons_of_mem _ hd)) (c :: cur)
      (Or.inl (List.cons_ne_nil _ _))]
    simp [List.append_assoc]

theorem pySplit_fmtFull (t : Datetime) :
    pySplit (fmtFull t) = ymdChars t :: pySplitGo (hmsChars t) [] := by
  show pySplitGo (ymdChars t ++ ' ' :: hmsChars t) [] = _
  rw [pySplitGo_token (hmsChars t) (ymdChars t)
    (fun c hc => ymdAlphabet_not_ws c (ymdChars_mem t c hc))
    [] (Or.inr (ymd_ne_nil t))]
  simp

theorem beforeFirstSpace_fmtFull (t : Datetime) :
    beforeFirstSpace (fmtFull t) = ymdChars t := by
  show (ymdChars t ++ ' ' :: hmsChars t).takeWhile _ = _
  exact takeWhile_append_stop _ (ymdChars t) ' ' (hmsChars t)
    (fun c hc => ymdAlphabet_ne_space c (ymdChars_mem t c hc)) (by decide)

theorem keep_fmtFull (t : Datetime) (target : String) :
    keepCard (some (fmtFull t)) target = some (specKeep (some (fmtFull t)) target) := by
  show (if fmtFull t = "" then some false
      else match pySplit (fmtFull t) with
        | [] => none
        | tk :: _ => some (decide (tk = target.data)))
    = some (if fmtFull t = "" then false
        else decide (beforeFirstSpace (fmtFull t) = target.data))
  rw [if_neg (fmtFull_ne_empty t), if_neg (fmtFull_ne_empty t)]
  rw [pySplit_fmtFull, beforeFirstSpace_fmtFull]

/-! ### Which tokens a match can produce -/

theorem tryMatch_token {cs : List Char} {n : Nat} {tok : List Char}
    (h : tryMatch cs = some (n, tok)) : tok ∈ unitTokens := by
  unfold tryMatch at h
  split at h
  · exact absurd h (by simp)
  · split at h
    · exact absurd h (by simp)
    · split at h
      · next tok' heq =>
        obtain ⟨_, rfl⟩ := Prod.mk.injEq .. ▸ Option.some.injEq .. ▸ h
        exact List.mem_of_find?_eq_some heq
      · exact absurd h (by simp)

theorem reSearch_token :
    ∀ (cs : List Char) {n : Nat} {tok : List Char},
      reSearch cs = some (n, tok) → tok ∈ unitTokens := by
  intro cs
  induction cs with
  | nil => intro n tok h; exact absurd h (by simp [reSearch])
  | cons c cs ih =>
    intro n tok h
    rw [reSearch] at h
    rcases heq : tryMatch (c :: cs) with _ | r
    · rw [heq] at h
      exact ih h
    · rw [heq] at h
      obtain rfl : r = (n, tok) := Option.some.injEq .. ▸ h
      exact tryMatch_token heq

/-- Output shape of `scrape_publish_date`: either the unparseable sentinel or
a formatted timestamp. -/
theorem scrape_shape (r : String) (now : Datetime) :
    scrape_publish_date r now = "Invalid Relative Time"
      ∨ ∃ dt, scrape_publish_date r now = fmtFull dt := by
  rcases h : reSearch r.data with _ | ⟨n, tok⟩
  · left
    unfold scrape_publish_date
    rw [h]
  · right
    have hmem := reSearch_token r.data h
    unfold scrape_publish_date
    rw [h]
    simp only [unitTokens, List.mem_cons, List.not_mem_nil, or_false] at hmem
    rcases hmem with rfl | rfl | rfl | rfl | rfl | rfl | rfl | rfl | rfl | rfl
    · exact ⟨subSeconds now n, by rfl⟩
    · exact ⟨subSeconds now (60 * n), by rfl⟩
    · exact ⟨subSeconds now (3600 * n), by rfl⟩
    · exact ⟨subSeconds now (86400 * n), by rfl⟩
    · exact ⟨subMonths now n, by rfl⟩
    · exact ⟨subMonths now n, by rfl⟩
    · exact ⟨subSeconds now n, by rfl⟩
    · exact ⟨subSeconds now (60 * n), by rfl⟩
    · exact ⟨subSeconds now (3600 * n), by rfl⟩
    · exact ⟨subSeconds now (86400 * n), by rfl⟩

/-- Spec-side unit semantics: fixed-duration subtraction for
second/minute/hour/day, calendar-aware subtraction for month. -/
def applyUnit (tok : List Char) (n : Nat) (now : Datetime) : Datetime :=
  if tok = "second".data ∨ tok = "ثانية".data then subSeconds now n
  else if tok = "minute".data ∨ tok = "دقيقة".data then subSeconds now (60 * n)
  else if tok = "hour".data ∨ tok = "ساعة".data then subSeconds now (3600 * n)
  else if tok = "day".data ∨ tok = "يوم".data then subSeconds now (86400 * n)
  else subMonths now n

/-- C2: whenever the pattern matches (magnitude `n`, unit token `tok`),
`scrape_publish_date` returns the current time minus `n` times the unit —
calendar-aware for months, fixed-duration otherwise — formatted as
`%Y-%m-%d %H:%M:%S`; in particular "5 ساعة" resolves to now minus 5 hours. -/
theorem c2_relative_time_resolution :
    (∀ (r : String) (now : Datetime) (n : Nat) (tok : List Char),
        reSearch r.data = some (n, tok) →
        scrape_publish_date r now = fmtFull (applyUnit tok n now))
    ∧ ∀ now : Datetime,
        scrape_publish_date "5 ساعة" now = fmtFull (subSeconds now (5 * 3600)) := by
  constructor
  · intro r now n tok h
    have hmem := reSearch_token r.data h
    unfold scrape_publish_date
    rw [h]
    simp only [unitTokens, List.mem_cons, List.not_mem_nil, or_false] at hmem
    rcases hmem with rfl | rfl | rfl | rfl | rfl | rfl | rfl | rfl | rfl | rfl
    all_goals rfl
  · intro now
    have h : reSearch ("5 ساعة" : String).data = some (5, "ساعة".data) := by decide
    unfold scrape_publish_date
    rw [h]
    rfl

/-- Witness for C2: "3 Days ago" at a concrete clock resolves through the
day branch, and the result is the concrete timestamp three days earlier. -/
theorem c2_relative_time_resolution_witness :
    scrape_publish_date "3 Days ago" ⟨2024, 3, 2, 1, 30, 0⟩
      = fmtFull (applyUnit "day".data 3 ⟨2024, 3, 2, 1, 30, 0⟩)
    ∧ scrape_publish_date "3 Days ago" ⟨2024, 3, 2, 1, 30, 0⟩ = "2024-02-28 01:30:00" :=
  ⟨c2_relative_time_resolution.1 "3 Days ago" ⟨2024, 3, 2, 1, 30, 0⟩ 3 "day".data
    (by decide), by decide⟩

/-! ### The refined `re.IGNORECASE` model

CPython's `re.IGNORECASE` does more than ASCII case folding: `sre` compiles
a lowercased pattern literal together with its documented Unicode
equivalences, so for the letters of this pattern the literal 's' also
matches LATIN SMALL LETTER LONG S 'ſ' (U+017F) and the literal 'i' also
matches LATIN SMALL LETTER DOTLESS I 'ı' (U+0131). The captured text
`match.group(2)` is the raw input, and `.lower()` leaves 'ſ' and 'ı'
unchanged — so a capture like "ſecond" reaches none of the unit branches
and the "Unsupported time unit found." fallback is genuinely returned by
the source. The definitions below refine the ASCII model with exactly
these equivalences and carry the captured text instead of the pattern
token. -/

/-- CPython `re.IGNORECASE` literal folding: ASCII case folding extended
with the two `sre` equivalences that involve this pattern's letters,
'ſ' ↔ 's' and 'ı' ↔ 'i'. -/
def reFoldChar (c : Char) : Char :=
  if c = 'ſ' then 's' else if c = 'ı' then 'i' else c.toLower

/-- First alternation token (in pattern order) whose fold-equivalent text
is a prefix of the input; returns the CAPTURED input text
(`match.group(2)`), not the pattern token. -/
def findUnitCap (cs : List Char) : Option (List Char) :=
  match unitTokens.find? (fun tok => (cs.take tok.length).map reFoldChar == tok) with
  | some tok => some (cs.take tok.length)
  | none => none

/-- `tryMatch` under the refined folding; the second component is
`match.group(2).lower()` (per-character `str.lower()`, which fixes 'ſ'
and 'ı'). -/
def tryMatchU (cs : List Char) : Option (Nat × List Char) :=
  if (cs.takeWhile Char.isDigit).isEmpty then none
  else if ((cs.dropWhile Char.isDigit).takeWhile Char.isWhitespace).isEmpty then none
  else
    match findUnitCap ((cs.dropWhile Char.isDigit).dropWhile Char.isWhitespace) with
    | some cap => some (digitsToNat (cs.takeWhile Char.isDigit), lowerList cap)
    | none => none

/-- `re.search` under the refined folding. -/
def reSearchU : List Char → Option (Nat × List Char)
  | [] => none
  | c :: cs =>
    match tryMatchU (c :: cs) with
    | some r => some r
    | none => reSearchU cs

/-- The unit dispatch of `scrape_publish_date` (src/DetailsScraper.py lines
166-179), factored out: `unitCs` is the lowered captured unit text. -/
def resolveUnit (number : Nat) (unitCs : List Char) (current_time : Datetime) : String :=
  if String.mk unitCs = "second" ∨ String.mk unitCs = "ثانية" then
    fmtFull (subSeconds current_time number)
  else if String.mk unitCs = "minute" ∨ String.mk unitCs = "دقيقة" then
    fmtFull (subSeconds current_time (60 * number))
  else if String.mk unitCs = "hour" ∨ String.mk unitCs = "ساعة" then
    fmtFull (subSeconds current_time (3600 * number))
  else if String.mk unitCs = "day" ∨ String.mk unitCs = "يوم" then
    fmtFull (subSeconds current_time (86400 * number))
  else if String.mk unitCs = "month" ∨ String.mk unitCs = "شهر" then
    fmtFull (subMonths current_time number)
  else "Unsupported time unit found."

/-- `DetailsScraping.scrape_publish_date` under the refined `IGNORECASE`
model: same structure as `scrape_publish_date` above, with the matcher
carrying the lowered captured text. -/
def scrape_publish_dateU (relative_time : String) (current_time : Datetime) : String :=
  match reSearchU relative_time.data with
  | none => "Invalid Relative Time"
  | some (number, unitCs) => resolveUnit number unitCs current_time

example : scrape_publish_dateU "5 ساعة" ⟨2024, 5, 15, 3, 0, 0⟩
    = "2024-05-14 22:00:00" := by decide

/-- Counterexample to C10: CPython's `IGNORECASE` equivalence 'ſ' ↔ 's'
lets the pattern capture "ſecond", whose `.lower()` is still "ſecond" —
handled by no unit branch — so `scrape_publish_date` really returns the
"Unsupported time unit found." fallback. -/
theorem c10_counterexample :
    scrape_publish_dateU "5 ſecond" ⟨2024, 1, 1, 0, 0, 0⟩
      = "Unsupported time unit found." := by decide

/-- C10 (amended): the "Unsupported time unit found." fallback IS reachable,
and it is returned exactly when the pattern matches but the lowered
captured unit text is outside the ten handled tokens (possible only through
the non-ASCII `IGNORECASE` equivalences, e.g. "5 ſecond"); whenever the
lowered capture is one of the ten tokens — every ASCII-cased Latin or exact
Arabic spelling — a unit branch handles it; and on no match the function
returns the "Invalid Relative Time" sentinel without raising. -/
theorem c10_fallback_characterised :
    ∀ (r : String) (now : Datetime),
      (∀ n u, reSearchU r.data = some (n, u) → u ∈ unitTokens →
          scrape_publish_dateU r now ≠ "Unsupported time unit found.")
      ∧ (∀ n u, reSearchU r.data = some (n, u) → u ∉ unitTokens →
          scrape_publish_dateU r now = "Unsupported time unit found.")
      ∧ (reSearchU r.data = none →
          scrape_publish_dateU r now = "Invalid Relative Time") := by
  intro r now
  refine ⟨?_, ?_, ?_⟩
  · intro n u h hmem
    unfold scrape_publish_dateU
    rw [h]
    simp only [unitTokens, List.mem_cons, List.not_mem_nil, or_false] at hmem
    rcases hmem with rfl | rfl | rfl | rfl | rfl | rfl | rfl | rfl | rfl | rfl
    · exact fmtFull_ne_unsupported (subSeconds now n)
    · exact fmtFull_ne_unsupported (subSeconds now (60 * n))
    · exact fmtFull_ne_unsupported (subSeconds now (3600 * n))
    · exact fmtFull_ne_unsupported (subSeconds now (86400 * n))
    · exact fmtFull_ne_unsupported (subMonths now n)
    · exact fmtFull_ne_unsupported (subMonths now n)
    · exact fmtFull_ne_unsupported (subSeconds now n)
    · exact fmtFull_ne_unsupported (subSeconds now (60 * n))
    · exact fmtFull_ne_unsupported (subSeconds now (3600 * n))
    · exact fmtFull_ne_unsupported (subSeconds now (86400 * n))
  · intro n u h hnot
    unfold scrape_publish_dateU
    rw [h]
    have hne : ∀ s : String, s.data ∈ unitTokens → ¬ (String.mk u = s) := by
      intro s hs hc
      apply hnot
      have hd : u = s.data := congrArg String.data hc
      rw [hd]
      exact hs
    show resolveUnit n u now = "Unsupported time unit found."
    unfold resolveUnit
    rw [if_neg (by
      rintro (hc | hc)
      exacts [hne "second" (by decide) hc, hne "ثانية" (by decide) hc])]
    rw [if_neg (by
      rintro (hc | hc)
      exacts [hne "minute" (by decide) hc, hne "دقيقة" (by decide) hc])]
    rw [if_neg (by
      rintro (hc | hc)
      exacts [hne "hour" (by decide) hc, hne "ساعة" (by decide) hc])]
    rw [if_neg (by
      rintro (hc | hc)
      exacts [hne "day" (by decide) hc, hne "يوم" (by decide) hc])]
    rw [if_neg (by
      rintro (hc | hc)
      exacts [hne "month" (by decide) hc, hne "شهر" (by decide) hc])]
  · intro h
    unfold scrape_publish_dateU
    rw [h]

/-- Witness for the amended C10: a handled Arabic capture avoids the
fallback, the 'ſ' capture reaches it, and an unmatched phrase yields the
invalid sentinel. -/
theorem c10_fallback_characterised_witness :
    scrape_publish_dateU "5 ساعة" ⟨2024, 1, 1, 0, 0, 0⟩
        ≠ "Unsupported time unit found."
    ∧ scrape_publish_dateU "5 ſecond" ⟨2024, 1, 1, 0, 0, 0⟩
        = "Unsupported time unit found."
    ∧ scrape_publish_dateU "منذ لحظات" ⟨2024, 1, 1, 0, 0, 0⟩
        = "Invalid Relative Time" :=
  ⟨(c10_fallback_characterised "5 ساعة" ⟨2024, 1, 1, 0, 0, 0⟩).1 5 "ساعة".data
      (by decide) (by decide),
   (c10_fallback_characterised "5 ſecond" ⟨2024, 1, 1, 0, 0, 0⟩).2.1 5
      "ſecond".data (by decide) (by decide),
   (c10_fallback_characterised "منذ لحظات" ⟨2024, 1, 1, 0, 0, 0⟩).2.2 (by decide)⟩

/-- C1: for the publish-date values this scraper can produce (`None` or an
output of `scrape_publish_date`), the filter retains a record iff its date
string is non-empty and its part before the first space equals the target
date (the day before the run's clock); records with a missing date or the
unparseable sentinel are always dropped. -/
theorem c1_date_window_filter :
    ∀ nowRun : Datetime,
      (∀ dp : Option String,
          (dp = none ∨ ∃ r nowR, dp = some (scrape_publish_date r nowR)) →
          keepCard dp (yesterdayStr nowRun)
            = some (specKeep dp (yesterdayStr nowRun)))
      ∧ ∀ (r : String) (nowR : Datetime), reSearch r.data = none →
          keepCard (some (scrape_publish_date r nowR)) (yesterdayStr nowRun)
            = some false := by
  intro nowRun
  constructor
  · intro dp hdp
    rcases hdp with rfl | ⟨r, nowR, rfl⟩
    · rfl
    · rcases scrape_shape r nowR with h | ⟨dt, h⟩
      · rw [h]
        rfl
      · rw [h]
        exact keep_fmtFull dt _
  · intro r nowR h
    have hs : scrape_publish_date r nowR = "Invalid Relative Time" := by
      unfold scrape_publish_date
      rw [h]
    rw [hs]
    have hne : ¬ (("Invalid".data : List Char) = (yesterdayStr nowRun).data) :=
      invalid_tok_ne_ymd (subSeconds nowRun 86400)
    show some (decide (("Invalid".data : List Char) = (yesterdayStr nowRun).data))
      = some false
    rw [decide_eq_false hne]

/-- Witness for C1: a record resolved five hours before a concrete clock
falls on the previous calendar day and is retained. -/
theorem c1_date_window_filter_witness :
    keepCard (some (scrape_publish_date "5 ساعة" ⟨2024, 5, 15, 3, 0, 0⟩))
        (yesterdayStr ⟨2024, 5, 15, 3, 0, 0⟩)
      = some (specKeep (some (scrape_publish_date "5 ساعة" ⟨2024, 5, 15, 3, 0, 0⟩))
        (yesterdayStr ⟨2024, 5, 15, 3, 0, 0⟩))
    ∧ specKeep (some (scrape_publish_date "5 ساعة" ⟨2024, 5, 15, 3, 0, 0⟩))
        (yesterdayStr ⟨2024, 5, 15, 3, 0, 0⟩) = true :=
  ⟨(c1_date_window_filter ⟨2024, 5, 15, 3, 0, 0⟩).1 _ (Or.inr ⟨_, _, rfl⟩),
   by decide⟩

/-! ### The chunk partition of the category map -/

/-- Iteration of `range(i, n, step)` for positive step `s1 + 1`
(fuel-structural; fuel `n` always suffices since every step advances). -/
def pyRangeGo (n s1 : Nat) : Nat → Nat → List Nat
  | 0, _ => []
  | fuel + 1, i => if i < n then i :: pyRangeGo n s1 fuel (i + s1 + 1) else []

/-- Python `range(0, n, step)`; `step = 0` raises `ValueError` in Python and
is never used here (the chunk size is the constant 2). -/
def pyRange (n step : Nat) : List Nat :=
  match step with
  | 0 => []
  | s1 + 1 => pyRangeGo n s1 n 0

/-- The chunk partition
`[items[i : i + chunk_size] for i in range(0, len(items), chunk_size)]`
from `scrape_all_jobs` (src/jobs_main.py lines 174-178) and
`scrape_all_others` (src/others_main.py lines 160-164), over the category
map's entry list in iteration order. -/
def makeChunks {α : Type} (l : List α) (C : Nat) : List (List α) :=
  (pyRange l.length C).map (fun i => (l.drop i).take C)

theorem pyRangeGo_join {α : Type} (l : List α) (s1 : Nat) :
    ∀ (fuel i : Nat), l.length - i ≤ fuel →
      ((pyRangeGo l.length s1 fuel i).map (fun j => (l.drop j).take (s1 + 1))).flatten
        = l.drop i := by
  intro fuel
  induction fuel with
  | zero =>
    intro i hi
    simp [pyRangeGo, List.drop_eq_nil_of_le (by omega : l.length ≤ i)]
  | succ f ih =>
    intro i hi
    by_cases h : i < l.length
    · simp only [pyRangeGo, if_pos h, List.map_cons, List.flatten_cons]
      rw [ih (i + s1 + 1) (by omega)]
      have h1 : l.drop (i + s1 + 1) = (l.drop i).drop (s1 + 1) := by
        rw [List.drop_drop]
        congr 1
      rw [h1]
      exact List.take_append_drop _ _
    · simp only [pyRangeGo, if_neg h, List.map_nil, List.flatten_nil]
      rw [List.drop_eq_nil_of_le (by omega : l.length ≤ i)]

theorem pyRangeGo_length (n s1 : Nat) :
    ∀ (fuel i : Nat), n - i ≤ fuel →
      (pyRangeGo n s1 fuel i).length = (n - i + s1) / (s1 + 1) := by
  intro fuel
  induction fuel with
  | zero =>
    intro i hi
    simp only [pyRangeGo, List.length_nil]
    rw [show n - i = 0 from by omega]
    rw [Nat.div_eq_of_lt (by omega)]
  | succ f ih =>
    intro i hi
    by_cases h : i < n
    · simp only [pyRangeGo, if_pos h, List.length_cons]
      rw [ih (i + s1 + 1) (by omega)]
      have h1 : n - i + s1 = (n - i - 1) + (s1 + 1) := by omega
      rw [h1, Nat.add_div_right _ (Nat.succ_pos s1)]
      congr 1
      by_cases h2 : n - i ≤ s1 + 1
      · rw [show n - (i + s1 + 1) = 0 from by omega]
        rw [Nat.div_eq_of_lt (by omega), Nat.div_eq_of_lt (by omega)]
      · congr 1
        omega
    · simp only [pyRangeGo, if_neg h, List.length_nil]
      rw [show n - i = 0 from by omega]
      rw [Nat.div_eq_of_lt (by omega)]

/-- C4: for every entry list and chunk size C > 0, the partition has exactly
ceil(n / C) = (n + C - 1) / C chunks, each chunk has at most C entries, and
the concatenation of the chunks in order is the original list — no entry
lost, duplicated, or reordered. -/
theorem c4_chunk_partition {α : Type} (l : List α) (C : Nat) (hC : 0 < C) :
    (makeChunks l C).length = (l.length + C - 1) / C
    ∧ (∀ ch ∈ makeChunks l C, ch.length ≤ C)
    ∧ (makeChunks l C).flatten = l := by
  obtain ⟨s1, rfl⟩ : ∃ s1, C = s1 + 1 := ⟨C - 1, by omega⟩
  refine ⟨?_, ?_, ?_⟩
  · show ((pyRangeGo l.length s1 l.length 0).map _).length = _
    rw [List.length_map]
    rw [pyRangeGo_length l.length s1 l.length 0 (by omega)]
    rw [show l.length - 0 + s1 = l.length + (s1 + 1) - 1 from by omega]
  · intro ch hch
    obtain ⟨i, _, rfl⟩ := List.mem_map.mp hch
    rw [List.length_take]
    exact Nat.min_le_left _ _
  · show ((pyRangeGo l.length s1 l.length 0).map _).flatten = _
    have hj := pyRangeGo_join l s1 l.length 0 (by omega)
    simpa using hj

/-- Witness for C4: five entries with chunk size 2 give three chunks of
sizes 2, 2, 1 concatenating back to the input. -/
theorem c4_chunk_partition_witness :
    (makeChunks [10, 11, 12, 13, 14] 2).length = (5 + 2 - 1) / 2
    ∧ (∀ ch ∈ makeChunks [10, 11, 12, 13, 14] 2, ch.length ≤ 2)
    ∧ (makeChunks [10, 11, 12, 13, 14] 2).flatten = [10, 11, 12, 13, 14] :=
  c4_chunk_partition [10, 11, 12, 13, 14] 2 (by decide)

/-! ### The page retry loop of `get_card_details` -/

/-- Outcome of one attempt of the `for attempt in range(self.retries)` body
in `get_card_details` (src/DetailsScraper.py lines 30-79): either every card
on the page is extracted and appended (then `break`), or an exception is
raised after some prefix of the cards was already appended. -/
inductive Attempt (α : Type) : Type
  | ok (cards : List α) : Attempt α
  | exc (partialCards : List α) : Attempt α
deriving DecidableEq

/-- The loop of `get_card_details`: `cards` is initialised once before the
loop and each attempt appends to it; a successful attempt breaks, a failed
attempt leaves its appended prefix in place and retries (the last failed
attempt just breaks). -/
def getCardsGo {α : Type} (outcome : Nat → Attempt α) :
    Nat → Nat → List α → List α
  | 0, _, acc => acc
  | fuel + 1, i, acc =>
    match outcome i with
    | .ok cs => acc ++ cs
    | .exc cs => getCardsGo outcome fuel (i + 1) (acc ++ cs)

/-- `DetailsScraping.get_card_details` with retry budget `retries`, the
attempts' outcomes given by `outcome`. -/
def get_card_details {α : Type} (retries : Nat) (outcome : Nat → Attempt α) :
    List α :=
  getCardsGo outcome retries 0 []

/-- Counterexample to C3: attempt 0 fails after extracting two cards,
attempt 1 fails extracting none, attempt 2 succeeds with five cards — the
returned list is NOT exactly the successful attempt's five cards: the two
cards of the failed first attempt are retained in front of them. -/
theorem c3_counterexample :
    get_card_details 3
        (fun i => if i = 0 then Attempt.exc [1, 2]
          else if i = 1 then Attempt.exc []
          else Attempt.ok [3, 4, 5, 6, 7])
      ≠ [3, 4, 5, 6, 7]
    ∧ get_card_details 3
        (fun i => if i = 0 then Attempt.exc [1, 2]
          else if i = 1 then Attempt.exc []
          else Attempt.ok [3, 4, 5, 6, 7])
      = [1, 2, 3, 4, 5, 6, 7] := by
  constructor
  · decide
  · decide

theorem getCardsGo_run {α : Type} (outcome : Nat → Attempt α)
    (p : Nat → List α) (s : List α) (k : Nat) :
    ∀ (fuel i : Nat) (acc : List α), i + fuel ≥ k + 1 →
      (∀ j, i ≤ j → j < k → outcome j = .exc (p j)) →
      outcome k = .ok s → i ≤ k →
      getCardsGo outcome fuel i acc
        = acc ++ ((List.range' i (k - i)).map p).flatten ++ s := by
  intro fuel
  induction fuel with
  | zero =>
    intro i acc hfuel _ _ hik
    omega
  | succ f ih =>
    intro i acc hfuel hfail hk hik
    rcases Nat.eq_or_lt_of_le hik with rfl | hlt
    · simp only [getCardsGo, hk]
      rw [show i - i = 0 from by omega]
      simp
    · have ho := hfail i (le_refl i) hlt
      simp only [getCardsGo, ho]
      rw [ih (i + 1) (acc ++ p i) (by omega)
        (fun j h1 h2 => hfail j (by omega) h2) hk (by omega)]
      rw [show k - i = (k - (i + 1)) + 1 from by omega]
      rw [List.range'_succ]
      simp [List.append_assoc]

theorem getCardsGo_allfail {α : Type} (outcome : Nat → Attempt α)
    (p : Nat → List α) (n : Nat) :
    ∀ (fuel i : Nat) (acc : List α), i + fuel = n →
      (∀ j, i ≤ j → j < n → outcome j = .exc (p j)) →
      getCardsGo outcome fuel i acc
        = acc ++ ((List.range' i (n - i)).map p).flatten := by
  intro fuel
  induction fuel with
  | zero =>
    intro i acc hfuel _
    rw [show n - i = 0 from by omega]
    simp [getCardsGo]
  | succ f ih =>
    intro i acc hfuel hfail
    have ho := hfail i (le_refl i) (by omega)
    simp only [getCardsGo, ho]
    rw [ih (i + 1) (acc ++ p i) (by omega)
      (fun j h1 h2 => hfail j (by omega) h2)]
    rw [show n - i = (n - (i + 1)) + 1 from by omega]
    rw [List.range'_succ]
    simp [List.append_assoc]

/-- C3 (amended): partial state of failed attempts is NOT discarded — the
returned list is the concatenation of the partial extractions of every
failed attempt before the first success, followed by the successful
attempt's cards (or just the accumulated partials when every attempt
fails). In particular the returned list equals the successful attempt's
cards exactly when every earlier failed attempt had extracted nothing —
e.g. when the failures were navigation timeouts. -/
theorem c3_retry_keeps_partial_state {α : Type} (outcome : Nat → Attempt α)
    (p : Nat → List α) (s : List α) (retries k : Nat) :
    (k < retries → (∀ j, j < k → outcome j = .exc (p j)) → outcome k = .ok s →
      get_card_details retries outcome
        = ((List.range k).map p).flatten ++ s)
    ∧ ((∀ j, j < retries → outcome j = .exc (p j)) →
      get_card_details retries outcome
        = ((List.range retries).map p).flatten) := by
  constructor
  · intro hk hfail hok
    unfold get_card_details
    rw [getCardsGo_run outcome p s k retries 0 [] (by omega)
      (fun j _ h2 => hfail j h2) hok (by omega)]
    rw [List.range_eq_range']
    simp
  · intro hfail
    unfold get_card_details
    rw [getCardsGo_allfail outcome p retries retries 0 [] (by omega)
      (fun j _ h2 => hfail j h2)]
    rw [List.range_eq_range']
    simp

/-- Witness for the amended C3: when the two failed attempts extracted
nothing (e.g. navigation timeouts), the third attempt's five cards are
exactly what is returned. -/
theorem c3_retry_keeps_partial_state_witness :
    get_card_details 3
        (fun i => if i = 0 then Attempt.exc []
          else if i = 1 then Attempt.exc []
          else Attempt.ok [3, 4, 5, 6, 7])
      = ((List.range 2).map (fun _ => ([] : List Nat))).flatten ++ [3, 4, 5, 6, 7] :=
  (c3_retry_keeps_partial_state
      (fun i => if i = 0 then Attempt.exc []
        else if i = 1 then Attempt.exc []
        else Attempt.ok [3, 4, 5, 6, 7])
      (fun _ => []) [3, 4, 5, 6, 7] 3 2).1 (by omega)
    (fun j hj => by
      rcases j with _ | j
      · rfl
      · rcases j with _ | j
        · rfl
        · omega)
    rfl

/-! ### The per-file upload retry loop of `upload_files_with_retry` -/

/-- The `for attempt in range(self.upload_retries)` loop for one file
(src/jobs_main.py lines 118-138, src/others_main.py lines 104-124):
`ex` is whether the local file exists (checked on each attempt), `res i`
the outcome of the `upload_file` call on attempt `i` (`none` models an
exception or a falsy file id, both of which enter the `except` branch).
A failure re-authenticates before the next attempt; the last failure just
logs. Returns (uploaded?, upload attempts made, re-authentications). -/
def uploadGo (ex : Bool) (res : Nat → Option Nat) (retries : Nat) :
    Nat → Nat → Nat → Nat → Bool × Nat × Nat
  | 0, _, attempts, reauths => (false, attempts, reauths)
  | fuel + 1, i, attempts, reauths =>
    if ex then
      match res i with
      | some _ => (true, attempts + 1, reauths)
      | none =>
        if i < retries - 1 then
          uploadGo ex res retries fuel (i + 1) (attempts + 1) (reauths + 1)
        else (false, attempts + 1, reauths)
    else (false, attempts, reauths)

/-- The per-file retry loop started from attempt 0. -/
def upload_one (retries : Nat) (ex : Bool) (res : Nat → Option Nat) :
    Bool × Nat × Nat :=
  uploadGo ex res retries retries 0 0 0

/-- The `for file in files` loop of `upload_files_with_retry`: each file
whose retry loop succeeded is appended to `uploaded_files`, in order. -/
def upload_files_with_retry (retries : Nat) (exF : Nat → Bool)
    (resF : Nat → Nat → Option Nat) : List Nat → List Nat
  | [] => []
  | f :: rest =>
    if (upload_one retries (exF f) (resF f)).1 then
      f :: upload_files_with_retry retries exF resF rest
    else upload_files_with_retry retries exF resF rest

theorem uploadGo_success (res : Nat → Option Nat) (retries N : Nat)
    (hN : N < retries) (hfail : ∀ i, i < N → res i = none) (hok : res N ≠ none) :
    ∀ (fuel i : Nat), i + fuel = retries → i ≤ N →
      uploadGo true res retries fuel i i i = (true, N + 1, N) := by
  intro fuel
  induction fuel with
  | zero => intro i h1 h2; omega
  | succ f ih =>
    intro i h1 h2
    rcases Nat.eq_or_lt_of_le h2 with rfl | hlt
    · rcases hres : res i with _ | v
      · exact absurd hres hok
      · simp [uploadGo, hres]
    · have hres := hfail i hlt
      simp only [uploadGo, hres, if_pos, if_neg]
      rw [if_pos (show i < retries - 1 from by omega)]
      exact ih (i + 1) (by omega) (by omega)

theorem uploadGo_allfail (res : Nat → Option Nat) (retries : Nat)
    (hfail : ∀ i, i < retries → res i = none) :
    ∀ (fuel i : Nat), i + fuel = retries → i < retries →
      uploadGo true res retries fuel i i i = (false, retries, retries - 1) := by
  intro fuel
  induction fuel with
  | zero => intro i h1 h2; omega
  | succ f ih =>
    intro i h1 h2
    have hres := hfail i h2
    simp only [uploadGo, hres, if_pos, if_neg, if_true]
    by_cases hlast : i < retries - 1
    · rw [if_pos hlast]
      exact ih (i + 1) (by omega) (by omega)
    · rw [if_neg hlast]
      have h3 : i + 1 = retries := by omega
      have h4 : i = retries - 1 := by omega
      rw [h3, h4]

/-- C5: the uploader attempts each file up to exactly the retry budget,
re-authenticating after each failure before the next attempt: with budget
`retries`, N failures (N < budget) followed by a success uploads the file
after N+1 attempts and N re-authentications; failures on all attempts
report failure after exactly `retries` attempts with no further attempt;
a missing local file is skipped with no upload attempt; the returned
uploaded set contains exactly the files whose loop succeeded. -/
theorem c5_upload_retry_budget (retries : Nat) (res : Nat → Option Nat) :
    (∀ N, N < retries → (∀ i, i < N → res i = none) → res N ≠ none →
        upload_one retries true res = (true, N + 1, N))
    ∧ (0 < retries → (∀ i, i < retries → res i = none) →
        upload_one retries true res = (false, retries, retries - 1))
    ∧ (0 < retries → upload_one retries false res = (false, 0, 0))
    ∧ ∀ (batch : List Nat) (exF : Nat → Bool) (resF : Nat → Nat → Option Nat)
        (f : Nat),
        f ∈ upload_files_with_retry retries exF resF batch
          ↔ f ∈ batch ∧ (upload_one retries (exF f) (resF f)).1 = true := by
  refine ⟨?_, ?_, ?_, ?_⟩
  · intro N hN hfail hok
    exact uploadGo_success res retries N hN hfail hok retries 0 (by omega) (by omega)
  · intro hpos hfail
    exact uploadGo_allfail res retries hfail retries 0 (by omega) hpos
  · intro hpos
    rcases retries with _ | r
    · omega
    · rfl
  · intro batch exF resF f
    induction batch with
    | nil => simp [upload_files_with_retry]
    | cons b rest ih =>
      by_cases hb : (upload_one retries (exF b) (resF b)).1 = true
      · simp only [upload_files_with_retry, if_pos hb, List.mem_cons, ih]
        constructor
        · rintro (rfl | ⟨h1, h2⟩)
          · exact ⟨Or.inl rfl, hb⟩
          · exact ⟨Or.inr h1, h2⟩
        · rintro ⟨rfl | h1, h2⟩
          · exact Or.inl rfl
          · exact Or.inr ⟨h1, h2⟩
      · simp only [upload_files_with_retry, if_neg hb, ih, List.mem_cons]
        constructor
        · rintro ⟨h1, h2⟩
          exact ⟨Or.inr h1, h2⟩
        · rintro ⟨rfl | h1, h2⟩
          · exact absurd h2 hb
          · exact ⟨h1, h2⟩

/-- Witness for C5 with the default budget 3: two forced failures then a
success is a success after 3 attempts and 2 re-authentications; three
forced failures is a reported failure after exactly 3 attempts. -/
theorem c5_upload_retry_budget_witness :
    upload_one 3 true (fun i => if i < 2 then none else some 99) = (true, 3, 2)
    ∧ upload_one 3 true (fun _ => none) = (false, 3, 2) :=
  ⟨(c5_upload_retry_budget 3 (fun i => if i < 2 then none else some 99)).1 2
      (by omega) (fun i hi => if_pos hi) (by decide),
   (c5_upload_retry_budget 3 (fun _ => none)).2.1 (by omega) (fun i _ => rfl)⟩

/-! ### Google Drive folder resolution
(`SavingOnDriveJobs` / `SavingOnDriveOthers`) -/

/-- A Drive entry as `get_folder_id`'s query sees it: id, name, whether it
sits in the configured parent folder, whether its mimeType is the folder
type, and whether it is trashed. -/
structure DriveEntry where
  eid : Nat
  name : String
  inParent : Bool
  isFolder : Bool
  trashed : Bool
deriving DecidableEq

/-- Drive state: entries in the order the API lists them, plus a fresh-id
counter. -/
structure Drive where
  entries : List DriveEntry
  nextId : Nat
deriving DecidableEq

/-- The query of `get_folder_id` (src/SavingOnDriveJobs.py lines 41-44):
`name='...' and parent and mimeType=folder and trashed=false`. -/
def folderQuery (nm : String) (e : DriveEntry) : Bool :=
  e.name == nm && e.inParent && e.isFolder && !e.trashed

/-- `SavingOnDriveJobs.get_folder_id` (lines 37-66): the first matching
folder's id, or `None`. -/
def get_folder_id (d : Drive) (nm : String) : Option Nat :=
  (d.entries.find? (folderQuery nm)).map DriveEntry.eid

/-- `SavingOnDriveJobs.create_folder` (lines 68-88): create a folder named
`nm` under the parent and return its id. -/
def create_folder (d : Drive) (nm : String) : Nat × Drive :=
  (d.nextId, ⟨d.entries ++ [⟨d.nextId, nm, true, true, false⟩], d.nextId + 1⟩)

/-- The folder-resolution step of `upload_files_with_retry`
(src/jobs_main.py lines 108-115): lookup by name, create only when lookup
returned nothing. Returns (folder id, state after, created?). -/
def resolveFolder (d : Drive) (nm : String) : Nat × Drive × Bool :=
  match get_folder_id d nm with
  | some fid => (fid, d, false)
  | none => ((create_folder d nm).1, (create_folder d nm).2, true)

theorem resolveFolder_hit (d : Drive) (nm : String) (fid : Nat)
    (h : get_folder_id d nm = some fid) : resolveFolder d nm = (fid, d, false) := by
  unfold resolveFolder
  rw [h]

theorem get_folder_id_after_create (d : Drive) (nm : String)
    (h : get_folder_id d nm = none) :
    get_folder_id (create_folder d nm).2 nm = some d.nextId := by
  have hfind : d.entries.find? (folderQuery nm) = none := by
    unfold get_folder_id at h
    rcases hf : d.entries.find? (folderQuery nm) with _ | e
    · rfl
    · rw [hf] at h
      exact absurd h (by simp)
  show ((d.entries ++ [DriveEntry.mk d.nextId nm true true false]).find?
      (folderQuery nm)).map DriveEntry.eid = some d.nextId
  rw [List.find?_append, hfind]
  rw [List.find?_cons_of_pos _ (by simp [folderQuery])]
  rfl

theorem resolveFolder_post (d : Drive) (nm : String) :
    get_folder_id (resolveFolder d nm).2.1 nm = some (resolveFolder d nm).1 := by
  unfold resolveFolder
  rcases h : get_folder_id d nm with _ | fid
  · exact get_folder_id_after_create d nm h
  · exact h

/-- C6: destination-folder resolution is idempotent lookup-before-create:
if a folder of the target name exists, lookup returns its id, the state is
unchanged and creation is not invoked; resolving twice with no intervening
change returns the same id both times with no creation on the second call;
creation happens only when lookup returned nothing. -/
theorem c6_folder_resolution_idempotent (d : Drive) (nm : String) :
    (∀ fid, get_folder_id d nm = some fid → resolveFolder d nm = (fid, d, false))
    ∧ resolveFolder (resolveFolder d nm).2.1 nm
        = ((resolveFolder d nm).1, (resolveFolder d nm).2.1, false)
    ∧ ∀ fid d', resolveFolder d nm = (fid, d', true) → get_folder_id d nm = none := by
  refine ⟨?_, ?_, ?_⟩
  · intro fid h
    exact resolveFolder_hit d nm fid h
  · exact resolveFolder_hit _ nm _ (resolveFolder_post d nm)
  · intro fid d' h
    rcases hg : get_folder_id d nm with _ | fid'
    · rfl
    · rw [resolveFolder_hit d nm fid' hg] at h
      exact absurd (congrArg (fun p => p.2.2) h) (by simp)

/-- Witness for C6: a drive that already holds a folder "2024-01-01" with
id 7 resolves to it without creating anything. -/
theorem c6_folder_resolution_idempotent_witness :
    resolveFolder ⟨[⟨7, "2024-01-01", true, true, false⟩], 8⟩ "2024-01-01"
      = (7, ⟨[⟨7, "2024-01-01", true, true, false⟩], 8⟩, false) :=
  (c6_folder_resolution_idempotent ⟨[⟨7, "2024-01-01", true, true, false⟩], 8⟩
    "2024-01-01").1 7 (by decide)

/-! ### Folder resolution across a run's chunks (`scrape_all_jobs` /
`scrape_all_others`) -/

/-- Uploading `k` files into the resolved folder: each `upload_file` call
creates a non-folder entry whose parent is the date folder (not the
configured parent folder), so folder lookups are unaffected. -/
def addFiles (d : Drive) (k : Nat) : Drive :=
  ⟨d.entries ++ (List.range k).map
      (fun j => DriveEntry.mk (d.nextId + j) "" false false false),
    d.nextId + k⟩

/-- The chunk loop of `scrape_all_jobs` (src/jobs_main.py lines 183-215)
restricted to its upload phase: for each chunk whose pending-upload batch
is non-empty (`k` files), `upload_files_with_retry` is called, which
resolves the date folder again (lines 108-115) and uploads the batch into
it. Returns the final Drive state and the folder ids resolved, one per
chunk that uploaded. -/
def runChunkUploads (nm : String) : Drive → List Nat → Drive × List Nat
  | d, [] => (d, [])
  | d, k :: rest =>
    if k = 0 then runChunkUploads nm d rest
    else
      ((runChunkUploads nm (addFiles (resolveFolder d nm).2.1 k) rest).1,
        (resolveFolder d nm).1
          :: (runChunkUploads nm (addFiles (resolveFolder d nm).2.1 k) rest).2)

/-- Counterexample to C7: starting from an empty drive, a run with two
chunks that both upload resolves the destination folder twice, not once. -/
theorem c7_counterexample :
    ((runChunkUploads "2024-01-01" ⟨[], 0⟩ [1, 1]).2).length = 2
    ∧ ((runChunkUploads "2024-01-01" ⟨[], 0⟩ [1, 1]).2).length ≠ 1 := by
  constructor
  · decide
  · decide

theorem get_folder_id_addFiles (d : Drive) (k : Nat) (nm : String) :
    get_folder_id (addFiles d k) nm = get_folder_id d nm := by
  show ((d.entries ++ (List.range k).map
      (fun j => DriveEntry.mk (d.nextId + j) "" false false false)).find?
      (folderQuery nm)).map DriveEntry.eid = _
  rw [List.find?_append]
  have hnone : ((List.range k).map
      (fun j => DriveEntry.mk (d.nextId + j) "" false false false)).find?
      (folderQuery nm) = none := by
    rw [List.find?_eq_none]
    intro e he
    obtain ⟨j, _, rfl⟩ := List.mem_map.mp he
    simp [folderQuery]
  rw [hnone]
  rcases hf : d.entries.find? (folderQuery nm) with _ | e
  · unfold get_folder_id
    rw [hf]
    rfl
  · unfold get_folder_id
    rw [hf]
    rfl

theorem runChunkUploads_found (nm : String) (fid : Nat) :
    ∀ (batches : List Nat) (d : Drive), get_folder_id d nm = some fid →
      (runChunkUploads nm d batches).2
        = List.replicate (batches.countP (fun b => b ≠ 0)) fid := by
  intro batches
  induction batches with
  | nil =>
    intro d _
    simp [runChunkUploads]
  | cons k rest ih =>
    intro d h
    by_cases hk : k = 0
    · simp only [runChunkUploads, if_pos hk]
      rw [ih d h]
      congr 1
      simp [List.countP_cons, hk]
    · simp only [runChunkUploads, if_neg hk]
      rw [resolveFolder_hit d nm fid h]
      have h2 : get_folder_id (addFiles d k) nm = some fid := by
        rw [get_folder_id_addFiles]
        exact h
      show fid :: (runChunkUploads nm (addFiles d k) rest).2 = _
      rw [ih (addFiles d k) h2]
      rw [show (k :: rest).countP (fun b => b ≠ 0)
          = rest.countP (fun b => b ≠ 0) + 1 from by simp [List.countP_cons, hk]]
      rfl

theorem runChunkUploads_shape (nm : String) :
    ∀ (batches : List Nat) (d : Drive),
      ∃ fid, (runChunkUploads nm d batches).2
        = List.replicate (batches.countP (fun b => b ≠ 0)) fid := by
  intro batches
  induction batches with
  | nil =>
    intro d
    exact ⟨0, by simp [runChunkUploads]⟩
  | cons k rest ih =>
    intro d
    by_cases hk : k = 0
    · obtain ⟨fid, hf⟩ := ih d
      refine ⟨fid, ?_⟩
      simp only [runChunkUploads, if_pos hk]
      rw [hf]
      congr 1
      simp [List.countP_cons, hk]
    · refine ⟨(resolveFolder d nm).1, ?_⟩
      simp only [runChunkUploads, if_neg hk]
      have hpost : get_folder_id (addFiles (resolveFolder d nm).2.1 k) nm
          = some (resolveFolder d nm).1 := by
        rw [get_folder_id_addFiles]
        exact resolveFolder_post d nm
      show (resolveFolder d nm).1
          :: (runChunkUploads nm (addFiles (resolveFolder d nm).2.1 k) rest).2 = _
      rw [runChunkUploads_found nm (resolveFolder d nm).1 rest
        (addFiles (resolveFolder d nm).2.1 k) hpost]
      rw [show (k :: rest).countP (fun b => b ≠ 0)
          = rest.countP (fun b => b ≠ 0) + 1 from by simp [List.countP_cons, hk]]
      rfl

/-- C7 (amended): the destination folder is resolved once per chunk whose
upload batch is non-empty — not once per run — and, because resolution is
lookup-before-create over the same Drive state and target date, every
resolution in the run yields the same folder identifier, which is the one
each batch's files are uploaded into. -/
theorem c7_folder_resolved_per_chunk (nm : String) (d : Drive)
    (batches : List Nat) :
    (runChunkUploads nm d batches).2.length = batches.countP (fun b => b ≠ 0)
    ∧ ∀ x ∈ (runChunkUploads nm d batches).2,
        ∀ y ∈ (runChunkUploads nm d batches).2, x = y := by
  obtain ⟨fid, hf⟩ := runChunkUploads_shape nm batches d
  constructor
  · rw [hf, List.length_replicate]
  · intro x hx y hy
    rw [hf] at hx hy
    rw [List.eq_of_mem_replicate hx, List.eq_of_mem_replicate hy]

/-- Witness for the amended C7, on the two-chunk run of the counterexample:
two resolutions, both returning the same id. -/
theorem c7_folder_resolved_per_chunk_witness :
    ((runChunkUploads "2024-01-01" ⟨[], 0⟩ [1, 1]).2).length
        = ([1, 1].countP (fun b => b ≠ 0))
    ∧ (0 : Nat) = 0 :=
  ⟨(c7_folder_resolved_per_chunk "2024-01-01" ⟨[], 0⟩ [1, 1]).1,
   (c7_folder_resolved_per_chunk "2024-01-01" ⟨[], 0⟩ [1, 1]).2 0 (by decide)
     0 (by decide)⟩

/-! ### Post-upload local cleanup -/

/-- The cleanup loop `for file in pending_uploads: os.remove(file)`
(src/jobs_main.py lines 206-211, src/others_main.py lines 193-198) over a
local-file set; filesystem paths are unique, hence the `Nodup` hypothesis
in the theorems below. -/
def removeAll (files : List Nat) (batch : List Nat) : List Nat :=
  batch.foldl (fun fs f => fs.erase f) files

/-- The upload-then-cleanup tail of one chunk iteration of
`scrape_all_jobs` (src/jobs_main.py lines 203-211) / `scrape_all_others`
(src/others_main.py lines 189-198): run the batch upload with retries,
then delete every file of `pending_uploads` — the deletion loop iterates
the batch, not the uploaded subset. Returns (uploaded subset, local files
remaining). -/
def processBatch (retries : Nat) (exF : Nat → Bool)
    (resF : Nat → Nat → Option Nat) (localFiles batch : List Nat) :
    List Nat × List Nat :=
  (upload_files_with_retry retries exF resF batch, removeAll localFiles batch)

theorem removeAll_subset (batch : List Nat) :
    ∀ files : List Nat, removeAll files batch ⊆ files := by
  induction batch with
  | nil => exact fun files _ h => h
  | cons b rest ih =>
    intro files x hx
    exact List.erase_subset b files (ih (files.erase b) hx)

theorem removeAll_not_mem (batch : List Nat) :
    ∀ (files : List Nat) (f : Nat), files.Nodup → f ∈ batch →
      f ∉ removeAll files batch := by
  induction batch with
  | nil =>
    intro files f _ hf
    exact absurd hf (List.not_mem_nil f)
  | cons b rest ih =>
    intro files f hnd hf
    rcases List.mem_cons.mp hf with rfl | hf'
    · intro hcontra
      have hsub : f ∈ files.erase f := removeAll_subset rest (files.erase f) hcontra
      exact (((List.Nodup.mem_erase_iff hnd).mp hsub).1) rfl
    · exact ih (files.erase b) f (hnd.erase b) hf'

/-- C8: after the batch upload call returns, every local export file of the
batch is deleted from local storage — deletion iterates the whole batch and
is not conditioned on the per-file upload outcome, so files whose upload
exhausted its retries are deleted too. -/
theorem c8_cleanup_unconditional (retries : Nat) (exF : Nat → Bool)
    (resF : Nat → Nat → Option Nat) (localFiles batch : List Nat)
    (hnd : localFiles.Nodup) :
    ∀ f ∈ batch, f ∉ (processBatch retries exF resF localFiles batch).2 := by
  intro f hf
  exact removeAll_not_mem batch localFiles f hnd hf

/-- Witness for C8: with every upload attempt failing, the uploaded subset
is empty and the batch files are deleted anyway. -/
theorem c8_cleanup_unconditional_witness :
    (3 ∉ (processBatch 3 (fun _ => true) (fun _ _ => none) [1, 2, 3] [2, 3]).2)
    ∧ (processBatch 3 (fun _ => true) (fun _ _ => none) [1, 2, 3] [2, 3]).1 = [] :=
  ⟨c8_cleanup_unconditional 3 (fun _ => true) (fun _ _ => none) [1, 2, 3] [2, 3]
    (by decide) 3 (by decide), by decide⟩

/-! ### Concurrency model: semaphore-bounded tasks, chunks in sequence -/

/-- Phase of one `scrape_job` / `scrape_other` task: created but not yet
past `async with semaphore` (`ready`), holding the semaphore with `w`
page-scrape steps left (`holding w`), or finished (`done`). -/
inductive TaskPhase : Type
  | ready : TaskPhase
  | holding (w : Nat) : TaskPhase
  | done : TaskPhase
deriving DecidableEq

def isHolding : TaskPhase → Bool
  | .holding _ => true
  | _ => false

/-- Scheduler state of a run: one phase per task (indexed by position),
the semaphore counter, and the index of the chunk being processed. -/
structure SchedState where
  phases : List TaskPhase
  sem : Nat
  cur : Nat
deriving DecidableEq

/-- Number of tasks currently holding the semaphore. -/
def countHolding (phases : List TaskPhase) : Nat :=
  (phases.filter isHolding).length

/-- Cooperative interleaving semantics of the chunk loop of
`scrape_all_jobs` (src/jobs_main.py lines 180-199) together with
`scrape_job` (lines 55-78): a task of the current chunk may pass
`async with semaphore` when the shared counter
(`asyncio.Semaphore(self.max_concurrent_links)`) is positive, decrementing
it; a holding task performs its page scrapes one suspension at a time and
then releases, incrementing the counter; the orchestrator `await`s every
task of the chunk before creating the next chunk's tasks, so the chunk
index advances only when all current-chunk tasks are done. `chunkOf i` is
the chunk in which task `i` is created. -/
inductive Step (K : Nat) (chunkOf : Nat → Nat) : SchedState → SchedState → Prop
  | acquire {s : SchedState} (i w : Nat) :
      s.phases[i]? = some .ready → chunkOf i = s.cur → 0 < s.sem →
      Step K chunkOf s ⟨s.phases.set i (.holding w), s.sem - 1, s.cur⟩
  | work {s : SchedState} (i w : Nat) :
      s.phases[i]? = some (.holding (w + 1)) →
      Step K chunkOf s ⟨s.phases.set i (.holding w), s.sem, s.cur⟩
  | release {s : SchedState} (i : Nat) :
      s.phases[i]? = some (.holding 0) →
      Step K chunkOf s ⟨s.phases.set i .done, s.sem + 1, s.cur⟩
  | advance {s : SchedState} :
      (∀ i, i < s.phases.length → chunkOf i = s.cur → s.phases[i]? = some .done) →
      Step K chunkOf s ⟨s.phases, s.sem, s.cur + 1⟩

/-- Start of a run: `n` idle tasks, the semaphore at its capacity `K`
(`max_concurrent_links`, default 2), chunk 0 current. -/
def initState (n K : Nat) : SchedState := ⟨List.replicate n .ready, K, 0⟩

/-- States reachable by any interleaving of the run. -/
def Reach (K : Nat) (chunkOf : Nat → Nat) (n : Nat) (s : SchedState) : Prop :=
  Relation.ReflTransGen (Step K chunkOf) (initState n K) s

/-- The inductive invariant: holders plus the semaphore counter equal the
capacity, and every holder belongs to the current chunk. -/
def SchedInv (K : Nat) (chunkOf : Nat → Nat) (s : SchedState) : Prop :=
  countHolding s.phases + s.sem = K
  ∧ ∀ i w, s.phases[i]? = some (.holding w) → chunkOf i = s.cur

theorem countHolding_cons (p : TaskPhase) (rest : List TaskPhase) :
    countHolding (p :: rest)
      = (if isHolding p = true then 1 else 0) + countHolding rest := by
  unfold countHolding
  cases hp : isHolding p <;> simp [List.filter_cons, hp, Nat.add_comm]

theorem countHolding_set (phases : List TaskPhase) :
    ∀ (i : Nat) (old nv : TaskPhase), phases[i]? = some old →
      countHolding (phases.set i nv) + (if isHolding old = true then 1 else 0)
        = countHolding phases + (if isHolding nv = true then 1 else 0) := by
  induction phases with
  | nil =>
    intro i old nv h
    exact absurd h (by simp)
  | cons p rest ih =>
    intro i old nv h
    cases i with
    | zero =>
      obtain rfl : p = old := by simpa using h
      rw [show (p :: rest).set 0 nv = nv :: rest from rfl]
      rw [countHolding_cons, countHolding_cons]
      omega
    | succ j =>
      have h' : rest[j]? = some old := by simpa using h
      have hih := ih j old nv h'
      rw [show (p :: rest).set (j + 1) nv = p :: rest.set j nv from rfl]
      rw [countHolding_cons, countHolding_cons]
      omega

theorem countHolding_replicate_ready (n : Nat) :
    countHolding (List.replicate n .ready) = 0 := by
  induction n with
  | zero => rfl
  | succ m ihm =>
    rw [List.replicate_succ, countHolding_cons]
    simpa [isHolding] using ihm

theorem schedInv_init (n K : Nat) (chunkOf : Nat → Nat) :
    SchedInv K chunkOf (initState n K) := by
  constructor
  · show countHolding (List.replicate n .ready) + K = K
    rw [countHolding_replicate_ready]
    omega
  · intro i w h
    have hmem := List.getElem?_mem h
    exact absurd (List.eq_of_mem_replicate hmem) (by simp)

theorem schedInv_step (K : Nat) (chunkOf : Nat → Nat) (s s' : SchedState)
    (hstep : Step K chunkOf s s') (hinv : SchedInv K chunkOf s) :
    SchedInv K chunkOf s' := by
  obtain ⟨hcount, hchunk⟩ := hinv
  cases hstep with
  | acquire i w hi hc hsem =>
    constructor
    · have hset := countHolding_set s.phases i .ready (.holding w) hi
      simp [isHolding] at hset
      show countHolding (s.phases.set i (.holding w)) + (s.sem - 1) = K
      omega
    · intro j w' hj
      show chunkOf j = s.cur
      by_cases hij : i = j
      · subst hij
        exact hc
      · rw [List.getElem?_set_ne hij] at hj
        exact hchunk j w' hj
  | work i w hi =>
    constructor
    · have hset := countHolding_set s.phases i (.holding (w + 1)) (.holding w) hi
      simp [isHolding] at hset
      show countHolding (s.phases.set i (.holding w)) + s.sem = K
      omega
    · intro j w' hj
      show chunkOf j = s.cur
      by_cases hij : i = j
      · subst hij
        exact hchunk i (w + 1) hi
      · rw [List.getElem?_set_ne hij] at hj
        exact hchunk j w' hj
  | release i hi =>
    constructor
    · have hset := countHolding_set s.phases i (.holding 0) .done hi
      simp [isHolding] at hset
      show countHolding (s.phases.set i .done) + (s.sem + 1) = K
      omega
    · intro j w' hj
      show chunkOf j = s.cur
      by_cases hij : i = j
      · subst hij
        obtain ⟨hlen, _⟩ := List.getElem?_eq_some_iff.mp hi
        rw [List.getElem?_set_self (by simpa using hlen)] at hj
        exact absurd hj (by simp)
      · rw [List.getElem?_set_ne hij] at hj
        exact hchunk j w' hj
  | advance hall =>
    refine ⟨hcount, ?_⟩
    intro j w' hj
    have hc := hchunk j w' hj
    obtain ⟨hlen, _⟩ := List.getElem?_eq_some_iff.mp hj
    have hd := hall j hlen hc
    rw [hj] at hd
    exact absurd hd (by simp)

/-- C9: in every reachable state of a run, at most K tasks hold the shared
semaphore (K = `max_concurrent_links`), and any two tasks holding it belong
to the same chunk — chunks never overlap. -/
theorem c9_semaphore_bound (K n : Nat) (chunkOf : Nat → Nat) (s : SchedState)
    (hreach : Reach K chunkOf n s) :
    countHolding s.phases ≤ K
    ∧ ∀ i w j w', s.phases[i]? = some (.holding w) →
        s.phases[j]? = some (.holding w') → chunkOf i = chunkOf j := by
  have hinv : SchedInv K chunkOf s := by
    induction hreach with
    | refl => exact schedInv_init n K chunkOf
    | tail hsteps hstep ih => exact schedInv_step _ _ _ _ hstep ih
  obtain ⟨hcount, hchunk⟩ := hinv
  constructor
  · omega
  · intro i w j w' hi hj
    rw [hchunk i w hi, hchunk j w' hj]

/-- Witness for C9: a four-task run with capacity 2 (chunks of two tasks),
after task 0 acquires the semaphore. -/
theorem c9_semaphore_bound_witness :
    countHolding
        (SchedState.mk [TaskPhase.holding 3, .ready, .ready, .ready] 1 0).phases
      ≤ 2 :=
  (c9_semaphore_bound 2 4 (fun i => i / 2)
    ⟨[TaskPhase.holding 3, .ready, .ready, .ready], 1, 0⟩
    (Relation.ReflTransGen.tail Relation.ReflTransGen.refl
      (Step.acquire 0 3 (by decide) (by decide) (by decide)))).1
